import Mathlib

/-!
Verification of the block-to-glyph quantization engine of a terminal image
viewer (tiv.cpp).  The pixel grid arrives as row-major lists of RGB pixels;
machine `unsigned int` values are modelled as `Nat` kept below `2 ^ 32` by
construction, and population counts are taken over the low 32 bits.
-/

namespace TIV

/-- One RGB pixel, each channel an 8-bit value (0..255). -/
structure Pixel where
  r : Nat
  g : Nat
  b : Nat
deriving DecidableEq

/-- Channel accessor: 0 ↦ red, 1 ↦ green, 2 ↦ blue (CImg channel index). -/
def Pixel.channel (p : Pixel) : Nat → Nat
  | 0 => p.r
  | 1 => p.g
  | _ => p.b

/-- The packed `long color` key of `findCharData`:
`color = ((color << 8) | d)` folded over the three channels. -/
def colorKey (p : Pixel) : Nat := ((p.r <<< 8 ||| p.g) <<< 8) ||| p.b

/-- Extract channel `i` from a packed color, as in
`(max_count_color >> (16 - 8*i)) & 255`. -/
def chanOf (col i : Nat) : Nat := (col >>> (16 - 8 * i)) &&& 255

/-- Unpack a packed color into a pixel. -/
def unpack (col : Nat) : Pixel := ⟨chanOf col 0, chanOf col 1, chanOf col 2⟩

/-- 32-bit population count: the number of set bits among the low 32 bits,
modelling `std::bitset<32>(x).count()`. -/
def popcount32 (n : Nat) : Nat :=
  (List.range 32).foldl (fun a i => a + if n.testBit i then 1 else 0) 0

/-- 32-bit bitwise complement, modelling `~pattern` on `unsigned int`. -/
def compl32 (p : Nat) : Nat := p ^^^ 0xffffffff

/-- The interleaved `BITMAPS` table of tiv.cpp as (pattern, codepoint) pairs,
in source order, including the two end markers `(0, 0)` and `(0, 1)`. -/
def bitmapPairs : List (Nat × Nat) := [
  (0x00000000, 0x00a0),
  (0x0000000f, 0x2581),
  (0x000000ff, 0x2582),
  (0x00000fff, 0x2583),
  (0x0000ffff, 0x2584),
  (0x000fffff, 0x2585),
  (0x00ffffff, 0x2586),
  (0x0fffffff, 0x2587),
  (0xeeeeeeee, 0x258a),
  (0xcccccccc, 0x258c),
  (0x88888888, 0x258e),
  (0x0000cccc, 0x2596),
  (0x00003333, 0x2597),
  (0xcccc0000, 0x2598),
  (0xcccc3333, 0x259a),
  (0x33330000, 0x259d),
  (0x000ff000, 0x2501),
  (0x66666666, 0x2503),
  (0x00077666, 0x250f),
  (0x000ee666, 0x2513),
  (0x66677000, 0x2517),
  (0x666ee000, 0x251b),
  (0x66677666, 0x2523),
  (0x666ee666, 0x252b),
  (0x000ff666, 0x2533),
  (0x666ff000, 0x253b),
  (0x666ff666, 0x254b),
  (0x000cc000, 0x2578),
  (0x00066000, 0x2579),
  (0x00033000, 0x257a),
  (0x00066000, 0x257b),
  (0x06600660, 0x254f),
  (0x000f0000, 0x2500),
  (0x0000f000, 0x2500),
  (0x44444444, 0x2502),
  (0x22222222, 0x2502),
  (0x000e0000, 0x2574),
  (0x0000e000, 0x2574),
  (0x44440000, 0x2575),
  (0x22220000, 0x2575),
  (0x00030000, 0x2576),
  (0x00003000, 0x2576),
  (0x00004444, 0x2577),
  (0x00002222, 0x2577),
  (0x44444444, 0x23a2),
  (0x22222222, 0x23a5),
  (0x0f000000, 0x23ba),
  (0x00f00000, 0x23bb),
  (0x00000f00, 0x23bc),
  (0x000000f0, 0x23bd),
  (0x00066000, 0x25aa),
  (0, 0),
  (0xccc00000, 0xfb00),
  (0x33300000, 0xfb01),
  (0xfff00000, 0xfb02),
  (0x000cc000, 0xfb03),
  (0xccccc000, 0xfb04),
  (0x333cc000, 0xfb05),
  (0xfffcc000, 0xfb06),
  (0x00033000, 0xfb07),
  (0xccc33000, 0xfb08),
  (0x33333000, 0xfb09),
  (0xfff33000, 0xfb0a),
  (0x000ff000, 0xfb0b),
  (0xcccff000, 0xfb0c),
  (0x333ff000, 0xfb0d),
  (0xfffff000, 0xfb0e),
  (0x00000ccc, 0xfb0f),
  (0xccc00ccc, 0xfb10),
  (0x33300ccc, 0xfb11),
  (0xfff00ccc, 0xfb12),
  (0x000ccccc, 0xfb13),
  (0x333ccccc, 0xfb14),
  (0xfffccccc, 0xfb15),
  (0x00033ccc, 0xfb16),
  (0xccc33ccc, 0xfb17),
  (0x33333ccc, 0xfb18),
  (0xfff33ccc, 0xfb19),
  (0x000ffccc, 0xfb1a),
  (0xcccffccc, 0xfb1b),
  (0x333ffccc, 0xfb1c),
  (0xfffffccc, 0xfb1d),
  (0x00000333, 0xfb1e),
  (0xccc00333, 0xfb1f),
  (0x33300333, 0x1b20),
  (0xfff00333, 0x1b21),
  (0x000cc333, 0x1b22),
  (0xccccc333, 0x1b23),
  (0x333cc333, 0x1b24),
  (0xfffcc333, 0x1b25),
  (0x00033333, 0x1b26),
  (0xccc33333, 0x1b27),
  (0xfff33333, 0x1b28),
  (0x000ff333, 0x1b29),
  (0xcccff333, 0x1b2a),
  (0x333ff333, 0x1b2b),
  (0xfffff333, 0x1b2c),
  (0x00000fff, 0x1b2d),
  (0xccc00fff, 0x1b2e),
  (0x33300fff, 0x1b2f),
  (0xfff00fff, 0x1b30),
  (0x000ccfff, 0x1b31),
  (0xcccccfff, 0x1b32),
  (0x333ccfff, 0x1b33),
  (0xfffccfff, 0x1b34),
  (0x00033fff, 0x1b35),
  (0xccc33fff, 0x1b36),
  (0x33333fff, 0x1b37),
  (0xfff33fff, 0x1b38),
  (0x000fffff, 0x1b39),
  (0xcccfffff, 0x1b3a),
  (0x333fffff, 0x1b3b),
  (0, 1)]

/-- Entries before the first entry whose codepoint equals the end marker,
modelling the loop bound `BITMAPS[i + 1] != end_marker`. -/
def takeUntilMarker (em : Nat) : List (Nat × Nat) → List (Nat × Nat)
  | [] => []
  | e :: rest => if e.2 = em then [] else e :: takeUntilMarker em rest

/-- The dictionary range actually scanned by `findCharData`:
`end_marker = flags & FLAG_TELETEXT ? 1 : 0`. -/
def activeEntries (teletext : Bool) : List (Nat × Nat) :=
  takeUntilMarker (if teletext then 1 else 0) bitmapPairs

/-- The running best of the glyph search of `findCharData`:
`best_diff`, `best_pattern`, `codepoint`, `inverted`. -/
structure GlyphState where
  diff : Nat
  pattern : Nat
  cp : Nat
  inverted : Bool
deriving DecidableEq

/-- The initial best of the glyph search:
`best_diff = 8`, `best_pattern = 0x0000ffff`, `codepoint = 0x2584`,
`inverted = false`. -/
def initGlyphState : GlyphState := ⟨8, 0x0000ffff, 0x2584, false⟩

/-- Processing of one dictionary entry by the glyph search: skip sentinel
codepoints (`< 32`); otherwise compare the mask `bits` against the entry
pattern (j = 0) and then against its complement (j = 1), updating the best on
a strictly smaller difference.  As in the source, an update always records
`BITMAPS[i]` (the uncomplemented pattern) in `best_pattern`, and sets
`inverted` to `best_pattern != pattern` for the compared `pattern`. -/
def glyphStep (bits : Nat) (s : GlyphState) (e : Nat × Nat) : GlyphState :=
  if e.2 < 32 then s
  else
    let d0 := popcount32 (e.1 ^^^ bits)
    let s1 := if d0 < s.diff then ⟨d0, e.1, e.2, decide (e.1 ≠ e.1)⟩ else s
    let d1 := popcount32 (compl32 e.1 ^^^ bits)
    if d1 < s1.diff then ⟨d1, e.1, e.2, decide (e.1 ≠ compl32 e.1)⟩ else s1

/-- The glyph search of `findCharData` over the active dictionary range. -/
def findGlyph (teletext : Bool) (bits : Nat) : GlyphState :=
  (activeEntries teletext).foldl (glyphStep bits) initGlyphState

/-- An entry's distance to a mask in the search's metric: the smaller of the
Hamming distance of its pattern to the mask and to the mask's complement. -/
def minDist32 (p m : Nat) : Nat :=
  min (popcount32 (p ^^^ m)) (popcount32 (compl32 p ^^^ m))

/-- `count_per_color[c]`: the number of pixels of the block with packed
color `c`. -/
def colorCount (ps : List Pixel) (c : Nat) : Nat :=
  ps.countP (fun p => colorKey p == c)

/-- The distinct packed colors of the block (the key set of
`count_per_color`). -/
def distinctKeys (ps : List Pixel) : List Nat := (ps.map colorKey).dedup

/-- The (count, color) pairs held by the `color_per_count` multimap, one per
distinct color. -/
def colorPairs (ps : List Pixel) : List (Nat × Nat) :=
  (distinctKeys ps).map (fun c => (colorCount ps c, c))

/-- The larger of two (count, color) pairs in the multimap's reverse
iteration order: count first, then (for the stable multimap over the
ascending color map) the packed color value. -/
def pairMax (a b : Nat × Nat) : Nat × Nat :=
  if a.1 < b.1 ∨ (a.1 = b.1 ∧ a.2 < b.2) then b else a

/-- The pair visited first by `color_per_count.rbegin()`. -/
def topPair (l : List (Nat × Nat)) : Nat × Nat := l.foldl pairMax (0, 0)

/-- Squared Euclidean RGB distance from a packed color to a pixel,
accumulated as `(c1 - c) * (c1 - c)` over the three channels. -/
def sqDist (col : Nat) (p : Pixel) : Int :=
  ((chanOf col 0 : Int) - (p.r : Int)) ^ 2 +
    ((chanOf col 1 : Int) - (p.g : Int)) ^ 2 +
    ((chanOf col 2 : Int) - (p.b : Int)) ^ 2

/-- Direct-mode coverage mask: scanning row-major, shift the mask left and
set the low bit when the pixel is strictly farther from `color1` than from
`color2` (`d1 > d2`). -/
def directBits (ps : List Pixel) (color1 color2 : Nat) : Nat :=
  ps.foldl
    (fun a p => 2 * a + if sqDist color2 p < sqDist color1 p then 1 else 0) 0

/-- Per-channel minimum over the block, starting from 255. -/
def chanMin (ps : List Pixel) (i : Nat) : Nat :=
  ps.foldl (fun m p => min m (p.channel i)) 255

/-- Per-channel maximum over the block, starting from 0. -/
def chanMax (ps : List Pixel) (i : Nat) : Nat :=
  ps.foldl (fun m p => max m (p.channel i)) 0

/-- The split channel choice: fold over the channels keeping
`(splitIndex, bestSplit)`, replacing on a strictly greater range. -/
def splitChoice (ps : List Pixel) : Nat × Nat :=
  (List.range 3).foldl
    (fun s i =>
      if chanMax ps i - chanMin ps i > s.2 then (i, chanMax ps i - chanMin ps i)
      else s)
    (0, 0)

/-- Split-mode coverage mask: shift left, set the low bit when the pixel's
value on the split channel strictly exceeds
`splitValue = min[splitIndex] + bestSplit / 2`. -/
def splitBits (ps : List Pixel) : Nat :=
  let si := (splitChoice ps).1
  let sv := chanMin ps si + (splitChoice ps).2 / 2
  ps.foldl (fun a p => 2 * a + if p.channel si > sv then 1 else 0) 0

/-- The result of the first phase of `findCharData` on a block:
`count2`, the two dominant packed colors, the mode flag `direct`, and the
coverage mask `bits`. -/
structure BlockAnalysis where
  count2 : Nat
  color1 : Nat
  color2 : Nat
  direct : Bool
  bits : Nat
deriving DecidableEq

/-- The analysis phase of `findCharData`: frequency ranking, the
`count2 > (8 * 4) / 2` mode decision, and the coverage mask. -/
def analyzeBlock (ps : List Pixel) : BlockAnalysis :=
  let pairs := colorPairs ps
  let top := topPair pairs
  let rest := pairs.erase top
  let count2 := if rest = [] then top.1 else top.1 + (topPair rest).1
  let color1 := top.2
  let color2 := if rest = [] then top.2 else (topPair rest).2
  let direct := decide (count2 > (8 * 4) / 2)
  let bits := if direct then directBits ps color1 color2 else splitBits ps
  ⟨count2, color1, color2, direct, bits⟩

/-- The rendering decision for one block: `CharData` of tiv.cpp. -/
structure CharData where
  fgColor : Pixel
  bgColor : Pixel
  codePoint : Nat
deriving DecidableEq

/-- A color-sum accumulator of `createCharData`: per-channel sums plus the
bucket's pixel count. -/
structure Bucket where
  r : Nat
  g : Nat
  b : Nat
  count : Nat
deriving DecidableEq

/-- One step of the accumulation loop of `createCharData`: test
`pattern & mask`, add the pixel to the foreground or background bucket, and
shift the mask right. -/
def ccdStep (pattern : Nat) (st : Bucket × Bucket × Nat) (p : Pixel) :
    Bucket × Bucket × Nat :=
  let fg := st.1
  let bg := st.2.1
  let mask := st.2.2
  if pattern &&& mask ≠ 0 then
    (⟨fg.r + p.r, fg.g + p.g, fg.b + p.b, fg.count + 1⟩, bg, mask >>> 1)
  else
    (fg, ⟨bg.r + p.r, bg.g + p.g, bg.b + p.b, bg.count + 1⟩, mask >>> 1)

/-- Truncating per-channel average of a bucket; a division is performed only
when the bucket is non-empty, exactly as in the source. -/
def bucketAvg (bk : Bucket) : Pixel :=
  if bk.count ≠ 0 then ⟨bk.r / bk.count, bk.g / bk.count, bk.b / bk.count⟩
  else ⟨bk.r, bk.g, bk.b⟩

/-- `createCharData`: partition the block's pixels by the glyph pattern
(mask starting at `0x80000000`, shifted right per pixel) and average each
bucket. -/
def createCharData (ps : List Pixel) (codepoint pattern : Nat) : CharData :=
  let st := ps.foldl (ccdStep pattern) (⟨0, 0, 0, 0⟩, ⟨0, 0, 0, 0⟩, 0x80000000)
  { fgColor := bucketAvg st.1
    bgColor := bucketAvg st.2.1
    codePoint := codepoint }

/-- `findCharData`: analyze the block, search the glyph dictionary with the
coverage mask, then finalize colors per mode.  In direct mode an inverted
match swaps the two dominant colors; in split mode `createCharData`
re-averages against the recorded best pattern. -/
def findCharData (ps : List Pixel) (teletext : Bool) : CharData :=
  let a := analyzeBlock ps
  let gs := findGlyph teletext a.bits
  if a.direct then
    let c1 := if gs.inverted then a.color2 else a.color1
    let c2 := if gs.inverted then a.color1 else a.color2
    { fgColor := unpack c2, bgColor := unpack c1, codePoint := gs.cp }
  else
    createCharData ps gs.cp gs.pattern

/-- `clamp_byte`. -/
def clamp_byte (value : Int) : Int :=
  if value < 0 then 0 else if value > 255 then 255 else value

/-- `COLOR_STEPS`: the six color-cube saturation steps. -/
def COLOR_STEPS : List Int := [0, 0x5f, 0x87, 0xaf, 0xd7, 0xff]

/-- `GRAYSCALE_STEPS`: the twenty-four grayscale-ramp steps. -/
def GRAYSCALE_STEPS : List Int :=
  [0x08, 0x12, 0x1c, 0x26, 0x30, 0x3a, 0x44, 0x4e, 0x58, 0x62, 0x6c, 0x76,
   0x80, 0x8a, 0x94, 0x9e, 0xa8, 0xb2, 0xbc, 0xc6, 0xd0, 0xda, 0xe4, 0xee]

/-- The scanning loop of `best_index`: `steps` is the remaining list, `i` the
index of its head, `bestI` and `bestD` the best index and difference so
far. -/
def bestIndexAux (value : Int) : List Int → Nat → Nat → Nat → Nat
  | [], _, bestI, _ => bestI
  | s :: rest, i, bestI, bestD =>
    if (s - value).natAbs < bestD then
      bestIndexAux value rest (i + 1) i ((s - value).natAbs)
    else bestIndexAux value rest (i + 1) bestI bestD

/-- `best_index`: index of the first step with minimal absolute difference
to `value`. -/
def best_index (value : Int) (steps : List Int) : Nat :=
  match steps with
  | [] => 0
  | s0 :: rest => bestIndexAux value rest 1 0 ((s0 - value).natAbs)

/-- The payload of one ANSI color escape produced by `emitTermColor`:
either a true-color triple or a 256-color palette index, with the
foreground/background selector. -/
inductive TermColor where
  | truecolor (bg : Bool) (r g b : Int)
  | indexed (bg : Bool) (idx : Nat)
deriving DecidableEq

/-- `emitTermColor`, modelled up to its floating-point subexpressions: the
luma `round(r*0.2989f + g*0.5870f + b*0.1140f)` is passed in as `gray`, and
the result of the double-precision weighted-error comparison between the
cube candidate and the grayscale candidate is passed in as `cubeCloser`.
All integer arithmetic (clamping, step search, palette index construction)
is exact. -/
def emitTermColor (mode256 bg : Bool) (r g b : Int) (gray : Int)
    (cubeCloser : Bool) : TermColor :=
  let r := clamp_byte r
  let g := clamp_byte g
  let b := clamp_byte b
  if !mode256 then .truecolor bg r g b
  else
    let ri := best_index r COLOR_STEPS
    let gi := best_index g COLOR_STEPS
    let bi := best_index b COLOR_STEPS
    let gri := best_index gray GRAYSCALE_STEPS
    let color_index :=
      if cubeCloser then 16 + 36 * ri + 6 * gi + bi else 232 + gri
    .indexed bg color_index

/-- The codepoints of the extended (teletext) dictionary section: the entries
of the extended scan range that lie beyond the standard range and its end
marker. -/
def extendedCodepoints : List Nat :=
  ((activeEntries true).drop ((activeEntries false).length + 1)).map
    (fun e => e.2)

/-- The pixels of the block assigned to one bucket by a glyph pattern:
pixel `i` (row-major) goes to the foreground bucket exactly when
`pattern & (mask >> i)` is non-zero for the initial mask `0x80000000`. -/
def selPixels (pattern : Nat) (fgWanted : Bool) : Nat → List Pixel → List Pixel
  | _, [] => []
  | mask, p :: rest =>
    if decide (pattern &&& mask ≠ 0) = fgWanted then
      p :: selPixels pattern fgWanted (mask >>> 1) rest
    else selPixels pattern fgWanted (mask >>> 1) rest

/-- Sum of the red channel over a pixel list. -/
def sumR (l : List Pixel) : Nat := (l.map Pixel.r).sum

/-- Sum of the green channel over a pixel list. -/
def sumG (l : List Pixel) : Nat := (l.map Pixel.g).sum

/-- Sum of the blue channel over a pixel list. -/
def sumB (l : List Pixel) : Nat := (l.map Pixel.b).sum

/-- Maximum of a list of naturals (0 for the empty list). -/
def maxNat (l : List Nat) : Nat := l.foldl max 0

/-- The multiset of per-color frequencies of the block. -/
def freqs (ps : List Pixel) : List Nat := (colorPairs ps).map (fun q => q.1)

/-- The largest per-color frequency of the block. -/
def maxFreq (ps : List Pixel) : Nat := maxNat (freqs ps)

/-- A sample 4x8 block with 32 pairwise distinct colors, hence in split
mode: pixel `i` has color `(i, 0, 0)`. -/
def sampleSplitBlock : List Pixel :=
  (List.range 32).map (fun i => ⟨i, 0, 0⟩)

/-- The effect of one dictionary entry on the running best difference of the
glyph search: sentinels leave it unchanged, other entries lower it to their
distance when smaller. -/
def minDiffStep (m d : Nat) (e : Nat × Nat) : Nat :=
  if e.2 < 32 then d else min d (minDist32 e.1 m)

/-- No 32-bit value equals its own complement. -/
theorem compl32_ne (p : Nat) : p ≠ compl32 p := by
  intro h
  have h0 := congrArg (fun x => Nat.testBit x 0) h
  unfold compl32 at h0
  simp only [] at h0
  rw [Nat.testBit_xor] at h0
  have hF : Nat.testBit 0xffffffff 0 = true := by decide
  rw [hF] at h0
  cases hp : p.testBit 0 <;> rw [hp] at h0 <;> simp at h0

/-- Complementing the entry before the xor is the same as complementing the
mask. -/
theorem compl32_xor_comm (a b : Nat) : compl32 a ^^^ b = a ^^^ compl32 b := by
  unfold compl32
  rw [Nat.xor_assoc, Nat.xor_comm 0xffffffff b]

/-- The best difference after one entry of the glyph search is the running
minimum of `minDiffStep`. -/
theorem glyphStep_diff (m : Nat) (s : GlyphState) (e : Nat × Nat) :
    (glyphStep m s e).diff = minDiffStep m s.diff e := by
  simp only [glyphStep, minDiffStep, minDist32]
  split_ifs <;> simp_all <;> omega

/-- The best difference of the glyph search is the running minimum of the
entry distances, starting from the initial best. -/
theorem foldGlyph_diff (m : Nat) (L : List (Nat × Nat)) : ∀ s : GlyphState,
    (L.foldl (glyphStep m) s).diff = L.foldl (minDiffStep m) s.diff := by
  induction L with
  | nil => intro s; rfl
  | cons e L ih =>
    intro s
    rw [List.foldl_cons, List.foldl_cons, ih, glyphStep_diff]

/-- The running minimum never exceeds its starting value. -/
theorem foldMin_le_init (m : Nat) (L : List (Nat × Nat)) : ∀ d : Nat,
    L.foldl (minDiffStep m) d ≤ d := by
  induction L with
  | nil => intro d; exact Nat.le_refl d
  | cons e L ih =>
    intro d
    refine Nat.le_trans (ih _) ?_
    unfold minDiffStep
    split
    · exact Nat.le_refl d
    · exact Nat.min_le_left _ _

/-- The running minimum is bounded by the distance of every non-sentinel
entry of the scanned range. -/
theorem foldMin_le_entry (m : Nat) (L : List (Nat × Nat)) : ∀ (d : Nat)
    (e : Nat × Nat), e ∈ L → ¬ e.2 < 32 →
    L.foldl (minDiffStep m) d ≤ minDist32 e.1 m := by
  induction L with
  | nil => intro d e he; cases he
  | cons a L ih =>
    intro d e he hcp
    rcases List.mem_cons.mp he with h | h
    · subst h
      rw [List.foldl_cons]
      refine Nat.le_trans (foldMin_le_init m L _) ?_
      unfold minDiffStep
      rw [if_neg hcp]
      exact Nat.min_le_right _ _
    · exact ih _ e h hcp

/-- One step of the glyph search either keeps the state or records the
entry's own uncomplemented pattern and codepoint, with `inverted` telling
which polarity produced the new best difference. -/
theorem glyphStep_achieve (m : Nat) (s : GlyphState) (e : Nat × Nat) :
    glyphStep m s e = s ∨
      (32 ≤ e.2 ∧ (glyphStep m s e).pattern = e.1 ∧
        (glyphStep m s e).cp = e.2 ∧
        (((glyphStep m s e).inverted = false ∧
            (glyphStep m s e).diff = popcount32 (e.1 ^^^ m)) ∨
         ((glyphStep m s e).inverted = true ∧
            (glyphStep m s e).diff = popcount32 (compl32 e.1 ^^^ m)))) := by
  by_cases hcp : e.2 < 32
  · left; simp [glyphStep, hcp]
  · have h32 : 32 ≤ e.2 := Nat.le_of_not_lt hcp
    simp only [glyphStep, if_neg hcp]
    split_ifs with h1 h2 h3
    · right
      refine ⟨h32, rfl, rfl, Or.inr ⟨?_, rfl⟩⟩
      simp [compl32_ne e.1]
    · right
      refine ⟨h32, rfl, rfl, Or.inl ⟨?_, rfl⟩⟩
      simp
    · right
      refine ⟨h32, rfl, rfl, Or.inr ⟨?_, rfl⟩⟩
      simp [compl32_ne e.1]
    · left; rfl

/-- The glyph search fold either never updates or ends in a state whose
pattern and codepoint come from a scanned non-sentinel entry, with the best
difference equal to that entry's distance in the polarity recorded by
`inverted`. -/
theorem foldGlyph_achieve (m : Nat) (L : List (Nat × Nat)) : ∀ s : GlyphState,
    L.foldl (glyphStep m) s = s ∨
      (∃ e ∈ L, 32 ≤ e.2 ∧ (L.foldl (glyphStep m) s).pattern = e.1 ∧
        (L.foldl (glyphStep m) s).cp = e.2 ∧
        (((L.foldl (glyphStep m) s).inverted = false ∧
            (L.foldl (glyphStep m) s).diff = popcount32 (e.1 ^^^ m)) ∨
         ((L.foldl (glyphStep m) s).inverted = true ∧
            (L.foldl (glyphStep m) s).diff =
              popcount32 (compl32 e.1 ^^^ m)))) := by
  induction L with
  | nil => intro s; left; rfl
  | cons a L ih =>
    intro s
    rw [List.foldl_cons]
    rcases ih (glyphStep m s a) with h | ⟨e, he, hrest⟩
    · rw [h]
      rcases glyphStep_achieve m s a with h2 | h2
      · left; exact h2
      · right; exact ⟨a, List.mem_cons_self a L, h2⟩
    · right; exact ⟨e, List.mem_cons_of_mem a he, hrest⟩

/-- A step whose two candidate differences do not beat the running best
leaves the state unchanged. -/
theorem glyphStep_keep (m : Nat) (s : GlyphState) (e : Nat × Nat)
    (h0 : ¬ popcount32 (e.1 ^^^ m) < s.diff)
    (h1 : ¬ popcount32 (compl32 e.1 ^^^ m) < s.diff) :
    glyphStep m s e = s := by
  unfold glyphStep
  split
  · rfl
  · simp only [if_neg h0, if_neg h1]

/-- When every non-sentinel entry of the scanned range is at distance at
least 8 from the mask in both polarities, no step of the search updates the
initial state. -/
theorem foldGlyph_no_update (m : Nat) (L : List (Nat × Nat))
    (h : ∀ e ∈ L, 32 ≤ e.2 →
      8 ≤ popcount32 (e.1 ^^^ m) ∧ 8 ≤ popcount32 (e.1 ^^^ compl32 m)) :
    L.foldl (glyphStep m) initGlyphState = initGlyphState := by
  induction L with
  | nil => rfl
  | cons a L ih =>
    rw [List.foldl_cons]
    have hstep : glyphStep m initGlyphState a = initGlyphState := by
      by_cases hcp : a.2 < 32
      · simp [glyphStep, hcp]
      · obtain ⟨ha0, ha1⟩ := h a (List.mem_cons_self a L) (Nat.le_of_not_lt hcp)
        rw [← compl32_xor_comm] at ha1
        have hd : initGlyphState.diff = 8 := rfl
        exact glyphStep_keep m initGlyphState a (by omega) (by omega)
    rw [hstep]
    exact ih (fun e he hcp => h e (List.mem_cons_of_mem a he) hcp)

/-- C10: when every non-sentinel dictionary entry in the active range
differs from the mask in at least 8 bit positions and from the mask's
complement in at least 8 bit positions, the glyph search returns the fixed
fallback: codepoint 0x2584 with pattern 0x0000ffff, not inverted. -/
theorem findGlyph_fallback (tt : Bool) (m : Nat)
    (h : ∀ e ∈ activeEntries tt, 32 ≤ e.2 →
      8 ≤ popcount32 (e.1 ^^^ m) ∧ 8 ≤ popcount32 (e.1 ^^^ compl32 m)) :
    (findGlyph tt m).cp = 0x2584 ∧ (findGlyph tt m).pattern = 0x0000ffff ∧
      (findGlyph tt m).inverted = false := by
  unfold findGlyph
  rw [foldGlyph_no_update m (activeEntries tt) h]
  exact ⟨rfl, rfl, rfl⟩

/-- Witness for C10 at the concrete mask 0x91b7584a, which is at distance
at least 8 from every standard entry in both polarities. -/
theorem findGlyph_fallback_witness :
    (∀ e ∈ activeEntries false, 32 ≤ e.2 →
      8 ≤ popcount32 (e.1 ^^^ 0x91b7584a) ∧
        8 ≤ popcount32 (e.1 ^^^ compl32 0x91b7584a)) ∧
    ((findGlyph false 0x91b7584a).cp = 0x2584 ∧
      (findGlyph false 0x91b7584a).pattern = 0x0000ffff ∧
      (findGlyph false 0x91b7584a).inverted = false) :=
  ⟨by decide, findGlyph_fallback false 0x91b7584a (by decide)⟩

/-- C8: the glyph search always returns a non-sentinel codepoint (at least
32), for every mask and flag setting: sentinels are skipped and the
pre-populated fallback is itself a non-sentinel glyph. -/
theorem findGlyph_never_sentinel (tt : Bool) (m : Nat) :
    32 ≤ (findGlyph tt m).cp := by
  unfold findGlyph
  rcases foldGlyph_achieve m (activeEntries tt) initGlyphState with
    h | ⟨e, _, h32, _, hcpe, _⟩
  · rw [h]; decide
  · rw [hcpe]; exact h32

/-- C6: with the extended glyph set disabled, the glyph search never
returns a codepoint of the extended dictionary section, whatever the mask
(so even when an extended entry would be a strictly closer match). -/
theorem findGlyph_extension_boundary (m : Nat) :
    (findGlyph false m).cp ∉ extendedCodepoints := by
  unfold findGlyph
  rcases foldGlyph_achieve m (activeEntries false) initGlyphState with
    h | ⟨e, he, _, _, hcpe, _⟩
  · rw [h]; decide
  · rw [hcpe]
    have hall : ∀ e2 ∈ activeEntries false, e2.2 ∉ extendedCodepoints := by
      decide
    exact hall e he

set_option maxRecDepth 100000 in
/-- Counterexample to C1 as stated: at mask 0x91b7584a the search keeps the
fallback entry (pattern 0x0000ffff, codepoint 0x2584) although the
non-sentinel dictionary entry (0xcccc3333, 0x259a) of the active range has a
strictly smaller distance in the min-of-both-polarities metric, so the
selected entry is not optimal. -/
theorem findGlyph_not_optimal_cex :
    (findGlyph false 0x91b7584a).pattern = 0x0000ffff ∧
    (findGlyph false 0x91b7584a).cp = 0x2584 ∧
    ((0xcccc3333 : Nat), (0x259a : Nat)) ∈ activeEntries false ∧
    32 ≤ (0x259a : Nat) ∧
    minDist32 0xcccc3333 0x91b7584a <
      minDist32 (findGlyph false 0x91b7584a).pattern 0x91b7584a := by
  decide

/-- C1 amended: whenever some non-sentinel entry of the active range is at
distance strictly below the initial threshold 8, the entry selected by the
glyph search minimises the min-of-both-polarities Hamming distance over all
non-sentinel entries of the active range. -/
theorem findGlyph_best_match (tt : Bool) (m : Nat) (e : Nat × Nat)
    (he : e ∈ activeEntries tt) (h32 : 32 ≤ e.2)
    (hlt : minDist32 e.1 m < 8) :
    ∀ e2 ∈ activeEntries tt, 32 ≤ e2.2 →
      minDist32 (findGlyph tt m).pattern m ≤ minDist32 e2.1 m := by
  intro e2 he2 h322
  have hne : ¬ e.2 < 32 := Nat.not_lt.mpr h32
  have hne2 : ¬ e2.2 < 32 := Nat.not_lt.mpr h322
  have hdiff : (findGlyph tt m).diff =
      (activeEntries tt).foldl (minDiffStep m) 8 :=
    foldGlyph_diff m (activeEntries tt) initGlyphState
  have hlow : (findGlyph tt m).diff ≤ minDist32 e.1 m := by
    rw [hdiff]; exact foldMin_le_entry m (activeEntries tt) 8 e he hne
  have hlow2 : (findGlyph tt m).diff ≤ minDist32 e2.1 m := by
    rw [hdiff]; exact foldMin_le_entry m (activeEntries tt) 8 e2 he2 hne2
  have hU : List.foldl (glyphStep m) initGlyphState (activeEntries tt) =
      findGlyph tt m := rfl
  rcases foldGlyph_achieve m (activeEntries tt) initGlyphState with
    hid | ⟨e0, _, _, hpat, _, hd⟩
  · rw [hU] at hid
    have h8 : (findGlyph tt m).diff = 8 := by rw [hid]; rfl
    omega
  · rw [hU] at hpat
    have hach : minDist32 (findGlyph tt m).pattern m ≤ (findGlyph tt m).diff := by
      unfold minDist32
      rcases hd with ⟨_, hdd⟩ | ⟨_, hdd⟩
      · rw [hU] at hdd
        rw [hpat, hdd]
        exact min_le_left _ _
      · rw [hU] at hdd
        rw [hpat, hdd]
        exact min_le_right _ _
    omega

/-- Witness for the amended C1: at mask 0 the entry (0x0000000f, 0x2581) is
at distance 4 from the mask, so the hypothesis holds, and the selected
entry is distance-minimal over the standard range. -/
theorem findGlyph_best_match_witness :
    ((0x0000000f : Nat), (0x2581 : Nat)) ∈ activeEntries false ∧
    32 ≤ (0x2581 : Nat) ∧ minDist32 0x0000000f 0 < 8 ∧
    (∀ e2 ∈ activeEntries false, 32 ≤ e2.2 →
      minDist32 (findGlyph false 0).pattern 0 ≤ minDist32 e2.1 0) :=
  ⟨by decide, by decide, by decide,
    findGlyph_best_match false 0 (0x0000000f, 0x2581) (by decide) (by decide)
      (by decide)⟩

set_option maxRecDepth 100000 in
/-- Counterexample to C2 as stated: at mask 0xffffffff the winning
comparison for entry (0x00000000, 0x00a0) uses the complement (the final
best difference is the distance of the complemented pattern, and `inverted`
is set), yet the recorded pattern is the original 0x00000000, not the
complemented pattern actually compared. -/
theorem findGlyph_records_cex :
    (findGlyph false 0xffffffff).inverted = true ∧
    (findGlyph false 0xffffffff).cp = 0x00a0 ∧
    ((0x00000000 : Nat), (0x00a0 : Nat)) ∈ activeEntries false ∧
    (findGlyph false 0xffffffff).diff =
      popcount32 (compl32 0x00000000 ^^^ 0xffffffff) ∧
    popcount32 (compl32 0x00000000 ^^^ 0xffffffff) <
      popcount32 (0x00000000 ^^^ 0xffffffff) ∧
    (findGlyph false 0xffffffff).pattern = 0x00000000 ∧
    (findGlyph false 0xffffffff).pattern ≠ compl32 0x00000000 := by
  decide

/-- C2 amended: the search records the entry's original (uncomplemented)
dictionary pattern together with the `inverted` flag: `inverted` is clear
when the winning comparison used the original pattern (the best difference
is its distance to the mask) and set when it used the complement (the best
difference is the complemented pattern's distance); in split mode, color
finalization partitions pixels using this recorded original pattern. -/
theorem findGlyph_records_original (tt : Bool) (m : Nat) (ps : List Pixel)
    (hsplit : (analyzeBlock ps).direct = false) :
    (findGlyph tt m = initGlyphState ∨
      ∃ e ∈ activeEntries tt, 32 ≤ e.2 ∧ (findGlyph tt m).pattern = e.1 ∧
        (findGlyph tt m).cp = e.2 ∧
        (((findGlyph tt m).inverted = false ∧
            (findGlyph tt m).diff = popcount32 (e.1 ^^^ m)) ∨
         ((findGlyph tt m).inverted = true ∧
            (findGlyph tt m).diff = popcount32 (compl32 e.1 ^^^ m)))) ∧
    findCharData ps tt =
      createCharData ps (findGlyph tt (analyzeBlock ps).bits).cp
        (findGlyph tt (analyzeBlock ps).bits).pattern := by
  constructor
  · exact foldGlyph_achieve m (activeEntries tt) initGlyphState
  · simp only [findCharData, hsplit]
    rfl

set_option maxRecDepth 100000 in
/-- Witness for the amended C2 at mask 0xffffffff and a concrete
split-mode block. -/
theorem findGlyph_records_original_witness :
    (analyzeBlock sampleSplitBlock).direct = false ∧
    ((findGlyph false 0xffffffff = initGlyphState ∨
      ∃ e ∈ activeEntries false, 32 ≤ e.2 ∧
        (findGlyph false 0xffffffff).pattern = e.1 ∧
        (findGlyph false 0xffffffff).cp = e.2 ∧
        (((findGlyph false 0xffffffff).inverted = false ∧
            (findGlyph false 0xffffffff).diff = popcount32 (e.1 ^^^ 0xffffffff)) ∨
         ((findGlyph false 0xffffffff).inverted = true ∧
            (findGlyph false 0xffffffff).diff =
              popcount32 (compl32 e.1 ^^^ 0xffffffff)))) ∧
    findCharData sampleSplitBlock false =
      createCharData sampleSplitBlock
        (findGlyph false (analyzeBlock sampleSplitBlock).bits).cp
        (findGlyph false (analyzeBlock sampleSplitBlock).bits).pattern) :=
  ⟨by decide,
    findGlyph_records_original false 0xffffffff sampleSplitBlock (by decide)⟩

set_option maxRecDepth 1000000 in
/-- C9: a flat 4x8 block of uniform color (10, 20, 30) is analyzed in
direct mode with top frequency 32 and both dominant colors equal to the
packed value of (10, 20, 30); the resulting cell has foreground equal to
background equal to (10, 20, 30), with either flag setting (the matched
glyph is the space, codepoint 0x00a0). -/
theorem flat_block_direct :
    (analyzeBlock (List.replicate 32 (⟨10, 20, 30⟩ : Pixel))).direct = true ∧
    (analyzeBlock (List.replicate 32 (⟨10, 20, 30⟩ : Pixel))).count2 = 32 ∧
    topPair (colorPairs (List.replicate 32 (⟨10, 20, 30⟩ : Pixel))) =
      (32, 660510) ∧
    (analyzeBlock (List.replicate 32 (⟨10, 20, 30⟩ : Pixel))).color1 =
      660510 ∧
    (analyzeBlock (List.replicate 32 (⟨10, 20, 30⟩ : Pixel))).color2 =
      660510 ∧
    unpack 660510 = ⟨10, 20, 30⟩ ∧
    findCharData (List.replicate 32 (⟨10, 20, 30⟩ : Pixel)) false =
      ⟨⟨10, 20, 30⟩, ⟨10, 20, 30⟩, 0x00a0⟩ ∧
    findCharData (List.replicate 32 (⟨10, 20, 30⟩ : Pixel)) true =
      ⟨⟨10, 20, 30⟩, ⟨10, 20, 30⟩, 0x00a0⟩ := by
  decide

/-- The scanning loop of best_index returns an index below any bound that
covers both the best-so-far and all remaining positions. -/
theorem bestIndexAux_lt (value : Int) (l : List Int) : ∀ i bestI bestD N : Nat,
    bestI < N → i + l.length ≤ N → bestIndexAux value l i bestI bestD < N := by
  induction l with
  | nil =>
    intro i bI bD N h1 _
    simpa [bestIndexAux] using h1
  | cons s rest ih =>
    intro i bI bD N h1 h2
    simp only [List.length_cons] at h2
    unfold bestIndexAux
    split
    · exact ih (i + 1) i _ N (by omega) (by omega)
    · exact ih (i + 1) bI bD N h1 (by omega)

/-- best_index always returns a valid index into a non-empty step table. -/
theorem best_index_lt (value : Int) (steps : List Int) (h : steps ≠ []) :
    best_index value steps < steps.length := by
  cases steps with
  | nil => exact absurd rfl h
  | cons s0 rest =>
    unfold best_index
    simp only [List.length_cons]
    exact bestIndexAux_lt value rest 1 0 _ (rest.length + 1) (by omega)
      (by omega)

/-- C5: in 256-color mode the emitted palette index is the color-cube
candidate 16 + 36*ri + 6*gi + bi with each step index in [0,5], or the
grayscale candidate 232 + gri with gri in [0,23], and always lies in
[16,255]; in true-color mode every emitted channel value is clamped into
[0,255].  The float-computed luma and error comparison are universally
quantified parameters. -/
theorem emitTermColor_palette_bounds (bg : Bool) (r g b gray : Int)
    (cubeCloser : Bool) :
    (∃ ri gi bi gri : Nat, ri ≤ 5 ∧ gi ≤ 5 ∧ bi ≤ 5 ∧ gri ≤ 23 ∧
      emitTermColor true bg r g b gray cubeCloser =
        TermColor.indexed bg
          (if cubeCloser then 16 + 36 * ri + 6 * gi + bi else 232 + gri) ∧
      16 ≤ (if cubeCloser then 16 + 36 * ri + 6 * gi + bi else 232 + gri) ∧
      (if cubeCloser then 16 + 36 * ri + 6 * gi + bi else 232 + gri) ≤ 255) ∧
    emitTermColor false bg r g b gray cubeCloser =
      TermColor.truecolor bg (clamp_byte r) (clamp_byte g) (clamp_byte b) ∧
    0 ≤ clamp_byte r ∧ clamp_byte r ≤ 255 ∧
    0 ≤ clamp_byte g ∧ clamp_byte g ≤ 255 ∧
    0 ≤ clamp_byte b ∧ clamp_byte b ≤ 255 := by
  have hri := best_index_lt (clamp_byte r) COLOR_STEPS (by decide)
  have hgi := best_index_lt (clamp_byte g) COLOR_STEPS (by decide)
  have hbi := best_index_lt (clamp_byte b) COLOR_STEPS (by decide)
  have hgri := best_index_lt gray GRAYSCALE_STEPS (by decide)
  have hlr : COLOR_STEPS.length = 6 := rfl
  have hlg : GRAYSCALE_STEPS.length = 24 := rfl
  rw [hlr] at hri hgi hbi
  rw [hlg] at hgri
  have hclamp : ∀ v : Int, 0 ≤ clamp_byte v ∧ clamp_byte v ≤ 255 := by
    intro v
    unfold clamp_byte
    split_ifs <;> omega
  refine ⟨⟨best_index (clamp_byte r) COLOR_STEPS,
      best_index (clamp_byte g) COLOR_STEPS,
      best_index (clamp_byte b) COLOR_STEPS,
      best_index gray GRAYSCALE_STEPS,
      by omega, by omega, by omega, by omega, rfl, ?_, ?_⟩,
    rfl, (hclamp r).1, (hclamp r).2, (hclamp g).1, (hclamp g).2,
    (hclamp b).1, (hclamp b).2⟩
  · cases cubeCloser <;> simp <;> omega
  · cases cubeCloser <;> simp <;> omega

/-- The foreground bucket accumulated by the createCharData loop holds the
channel sums and count of the pixels selected by the pattern under the
shifting mask. -/
theorem ccd_fold_fg (pattern : Nat) (ps : List Pixel) :
    ∀ (fg bg : Bucket) (mask : Nat),
    (ps.foldl (ccdStep pattern) (fg, bg, mask)).1 =
      ⟨fg.r + sumR (selPixels pattern true mask ps),
       fg.g + sumG (selPixels pattern true mask ps),
       fg.b + sumB (selPixels pattern true mask ps),
       fg.count + (selPixels pattern true mask ps).length⟩ := by
  induction ps with
  | nil =>
    intro fg bg mask
    simp [selPixels, sumR, sumG, sumB]
  | cons p rest ih =>
    intro fg bg mask
    rw [List.foldl_cons]
    by_cases hc : pattern &&& mask ≠ 0
    · have hd : decide (pattern &&& mask ≠ 0) = true := decide_eq_true hc
      have hstep : ccdStep pattern (fg, bg, mask) p =
          (⟨fg.r + p.r, fg.g + p.g, fg.b + p.b, fg.count + 1⟩, bg,
            mask >>> 1) := by
        simp [ccdStep, hc]
      rw [hstep, ih]
      simp [selPixels, hd, sumR, sumG, sumB, Bucket.mk.injEq] <;> omega
    · have hd : decide (pattern &&& mask ≠ 0) = false := decide_eq_false hc
      have hstep : ccdStep pattern (fg, bg, mask) p =
          (fg, ⟨bg.r + p.r, bg.g + p.g, bg.b + p.b, bg.count + 1⟩,
            mask >>> 1) := by
        simp [ccdStep, hc]
      rw [hstep, ih]
      simp [selPixels, hd, sumR, sumG, sumB, Bucket.mk.injEq] <;> omega

/-- The background bucket accumulated by the createCharData loop holds the
channel sums and count of the pixels rejected by the pattern under the
shifting mask. -/
theorem ccd_fold_bg (pattern : Nat) (ps : List Pixel) :
    ∀ (fg bg : Bucket) (mask : Nat),
    (ps.foldl (ccdStep pattern) (fg, bg, mask)).2.1 =
      ⟨bg.r + sumR (selPixels pattern false mask ps),
       bg.g + sumG (selPixels pattern false mask ps),
       bg.b + sumB (selPixels pattern false mask ps),
       bg.count + (selPixels pattern false mask ps).length⟩ := by
  induction ps with
  | nil =>
    intro fg bg mask
    simp [selPixels, sumR, sumG, sumB]
  | cons p rest ih =>
    intro fg bg mask
    rw [List.foldl_cons]
    by_cases hc : pattern &&& mask ≠ 0
    · have hd : decide (pattern &&& mask ≠ 0) = true := decide_eq_true hc
      have hstep : ccdStep pattern (fg, bg, mask) p =
          (⟨fg.r + p.r, fg.g + p.g, fg.b + p.b, fg.count + 1⟩, bg,
            mask >>> 1) := by
        simp [ccdStep, hc]
      rw [hstep, ih]
      simp [selPixels, hd, sumR, sumG, sumB, Bucket.mk.injEq] <;> omega
    · have hd : decide (pattern &&& mask ≠ 0) = false := decide_eq_false hc
      have hstep : ccdStep pattern (fg, bg, mask) p =
          (fg, ⟨bg.r + p.r, bg.g + p.g, bg.b + p.b, bg.count + 1⟩,
            mask >>> 1) := by
        simp [ccdStep, hc]
      rw [hstep, ih]
      simp [selPixels, hd, sumR, sumG, sumB, Bucket.mk.injEq] <;> omega

/-- C7: in split-mode color finalization, a bucket with zero member pixels
keeps the zero default (0,0,0), while each non-empty bucket's color is the
per-channel integer-truncated average of its member pixels, selected by the
glyph pattern with the first pixel in the most significant bit. -/
theorem createCharData_bucket_avg (ps : List Pixel) (cp pattern : Nat) :
    (createCharData ps cp pattern).fgColor =
      (if h : selPixels pattern true 0x80000000 ps = [] then (⟨0, 0, 0⟩ : Pixel)
       else
         ⟨sumR (selPixels pattern true 0x80000000 ps) /
            (selPixels pattern true 0x80000000 ps).length,
          sumG (selPixels pattern true 0x80000000 ps) /
            (selPixels pattern true 0x80000000 ps).length,
          sumB (selPixels pattern true 0x80000000 ps) /
            (selPixels pattern true 0x80000000 ps).length⟩) ∧
    (createCharData ps cp pattern).bgColor =
      (if h : selPixels pattern false 0x80000000 ps = [] then (⟨0, 0, 0⟩ : Pixel)
       else
         ⟨sumR (selPixels pattern false 0x80000000 ps) /
            (selPixels pattern false 0x80000000 ps).length,
          sumG (selPixels pattern false 0x80000000 ps) /
            (selPixels pattern false 0x80000000 ps).length,
          sumB (selPixels pattern false 0x80000000 ps) /
            (selPixels pattern false 0x80000000 ps).length⟩) ∧
    (createCharData ps cp pattern).codePoint = cp := by
  have hfg := ccd_fold_fg pattern ps ⟨0, 0, 0, 0⟩ ⟨0, 0, 0, 0⟩ 0x80000000
  have hbg := ccd_fold_bg pattern ps ⟨0, 0, 0, 0⟩ ⟨0, 0, 0, 0⟩ 0x80000000
  refine ⟨?_, ?_, rfl⟩
  · show bucketAvg
        ((ps.foldl (ccdStep pattern)
          (⟨0, 0, 0, 0⟩, ⟨0, 0, 0, 0⟩, 0x80000000)).1) = _
    rw [hfg]
    by_cases h : selPixels pattern true 0x80000000 ps = []
    · rw [dif_pos h, h]
      rfl
    · rw [dif_neg h]
      have hlen : (selPixels pattern true 0x80000000 ps).length ≠ 0 := by
        intro h0
        exact h (List.length_eq_zero.mp h0)
      unfold bucketAvg
      simp [hlen]
  · show bucketAvg
        ((ps.foldl (ccdStep pattern)
          (⟨0, 0, 0, 0⟩, ⟨0, 0, 0, 0⟩, 0x80000000)).2.1) = _
    rw [hbg]
    by_cases h : selPixels pattern false 0x80000000 ps = []
    · rw [dif_pos h, h]
      rfl
    · rw [dif_neg h]
      have hlen : (selPixels pattern false 0x80000000 ps).length ≠ 0 := by
        intro h0
        exact h (List.length_eq_zero.mp h0)
      unfold bucketAvg
      simp [hlen]

/-- The MSB-first shift-accumulate fold over a list of bits: bit
`length - 1 - i` of the result is the i-th element of the list. -/
theorem boolFold_testBit (l : List Bool) : ∀ i, i < l.length →
    (l.foldl (fun a c => 2 * a + if c = true then 1 else 0) 0).testBit
      (l.length - 1 - i) = l.getD i false := by
  induction l using List.reverseRecOn with
  | nil =>
    intro i hi
    simp at hi
  | append_singleton l b ih =>
    intro i hi
    rw [List.foldl_append]
    simp only [List.foldl_cons, List.foldl_nil]
    rw [List.length_append, List.length_singleton] at hi ⊢
    generalize hV : List.foldl (fun a c => 2 * a + if c = true then 1 else 0) 0 l = V
    rw [hV] at ih
    by_cases hil : i = l.length
    · subst hil
      have h0 : l.length + 1 - 1 - l.length = 0 := by omega
      rw [h0, Nat.testBit_zero]
      rw [List.getD_eq_getElem?_getD, List.getElem?_concat_length]
      cases b
      · have hm : (2 * V) % 2 = 0 := by omega
        simp [hm]
      · have hm : (2 * V + 1) % 2 = 1 := by omega
        simp [hm]
    · have hlt : i < l.length := by omega
      have h1 : l.length + 1 - 1 - i = (l.length - 1 - i) + 1 := by omega
      rw [h1, Nat.testBit_succ]
      have h2 : (2 * V + if b = true then 1 else 0) / 2 = V := by
        cases b <;> simp <;> omega
      rw [h2]
      rw [List.getD_eq_getElem?_getD, List.getElem?_append_left hlt,
        ← List.getD_eq_getElem?_getD]
      exact ih i hlt

/-- The split channel choice records the range of the chosen channel, and
that range is maximal over the three channels. -/
theorem splitChoice_spec (ps : List Pixel) :
    (splitChoice ps).2 =
      chanMax ps (splitChoice ps).1 - chanMin ps (splitChoice ps).1 ∧
    ∀ j, j < 3 → chanMax ps j - chanMin ps j ≤ (splitChoice ps).2 := by
  have hr3 : List.range 3 = [0, 1, 2] := rfl
  simp only [splitChoice, hr3, List.foldl_cons, List.foldl_nil]
  split_ifs with h1 h2 h3 h4 h5 h6 h7 <;>
    refine ⟨by simp at * <;> omega, ?_⟩ <;>
    intro j hj <;> interval_cases j <;> simp at * <;> omega

/-- C4: when split mode is chosen, the analyzer picks a channel of maximal
range, computes the threshold `min + range / 2` with integer truncation,
and sets mask bit `31 - i` (row-major, first pixel in the most significant
bit) to 1 exactly when pixel i strictly exceeds the threshold on that
channel. -/
theorem analyzeBlock_split_mode (ps : List Pixel) (hlen : ps.length = 32)
    (hsplit : (analyzeBlock ps).direct = false) :
    (∀ j, j < 3 → chanMax ps j - chanMin ps j ≤
        chanMax ps (splitChoice ps).1 - chanMin ps (splitChoice ps).1) ∧
    (splitChoice ps).2 =
      chanMax ps (splitChoice ps).1 - chanMin ps (splitChoice ps).1 ∧
    (analyzeBlock ps).bits = splitBits ps ∧
    (∀ i, i < 32 →
      (analyzeBlock ps).bits.testBit (31 - i) =
        decide (chanMin ps (splitChoice ps).1 + (splitChoice ps).2 / 2 <
          (ps.getD i ⟨0, 0, 0⟩).channel (splitChoice ps).1)) := by
  obtain ⟨hrange, hmax⟩ := splitChoice_spec ps
  have hbits : (analyzeBlock ps).bits = splitBits ps := by
    unfold analyzeBlock at hsplit ⊢
    dsimp only at hsplit ⊢
    rw [hsplit]
    simp
  refine ⟨fun j hj => hrange ▸ hmax j hj, hrange, hbits, ?_⟩
  intro i hi
  rw [hbits]
  have hmap : splitBits ps =
      (ps.map (fun p =>
        decide (chanMin ps (splitChoice ps).1 + (splitChoice ps).2 / 2 <
          p.channel (splitChoice ps).1))).foldl
        (fun a c => 2 * a + if c = true then 1 else 0) 0 := by
    simp only [splitBits]
    rw [List.foldl_map]
    simp
  rw [hmap]
  have hml : (ps.map (fun p =>
      decide (chanMin ps (splitChoice ps).1 + (splitChoice ps).2 / 2 <
        p.channel (splitChoice ps).1))).length = 32 := by
    rw [List.length_map, hlen]
  have htb := boolFold_testBit (ps.map (fun p =>
      decide (chanMin ps (splitChoice ps).1 + (splitChoice ps).2 / 2 <
        p.channel (splitChoice ps).1))) i (by omega)
  rw [hml] at htb
  have h31 : 32 - 1 - i = 31 - i := by omega
  rw [h31] at htb
  rw [htb]
  have hi' : i < ps.length := by omega
  rw [List.getD_eq_getElem?_getD, List.getElem?_map,
    List.getElem?_eq_getElem hi']
  rw [List.getD_eq_getElem?_getD, List.getElem?_eq_getElem hi']
  rfl

set_option maxRecDepth 1000000 in
/-- Witness for C4 at a concrete 32-pixel split-mode block. -/
theorem analyzeBlock_split_mode_witness :
    sampleSplitBlock.length = 32 ∧
    (analyzeBlock sampleSplitBlock).direct = false ∧
    ((∀ j, j < 3 → chanMax sampleSplitBlock j - chanMin sampleSplitBlock j ≤
        chanMax sampleSplitBlock (splitChoice sampleSplitBlock).1 -
          chanMin sampleSplitBlock (splitChoice sampleSplitBlock).1) ∧
    (splitChoice sampleSplitBlock).2 =
      chanMax sampleSplitBlock (splitChoice sampleSplitBlock).1 -
        chanMin sampleSplitBlock (splitChoice sampleSplitBlock).1 ∧
    (analyzeBlock sampleSplitBlock).bits = splitBits sampleSplitBlock ∧
    (∀ i, i < 32 →
      (analyzeBlock sampleSplitBlock).bits.testBit (31 - i) =
        decide (chanMin sampleSplitBlock (splitChoice sampleSplitBlock).1 +
            (splitChoice sampleSplitBlock).2 / 2 <
          (sampleSplitBlock.getD i ⟨0, 0, 0⟩).channel
            (splitChoice sampleSplitBlock).1))) :=
  ⟨by decide, by decide,
    analyzeBlock_split_mode sampleSplitBlock (by decide) (by decide)⟩

/-- The first component of pairMax is the maximum of the first
components. -/
theorem pairMax_fst (a b : Nat × Nat) : (pairMax a b).1 = max a.1 b.1 := by
  unfold pairMax
  split_ifs with h <;> omega

/-- The first component of the pairMax fold is the max fold of the first
components. -/
theorem foldl_pairMax_fst (l : List (Nat × Nat)) : ∀ d : Nat × Nat,
    (l.foldl pairMax d).1 = (l.map (fun q => q.1)).foldl max d.1 := by
  induction l with
  | nil => intro d; rfl
  | cons a l ih =>
    intro d
    rw [List.map_cons, List.foldl_cons, List.foldl_cons, ih, pairMax_fst]

/-- The top frequency of the multimap scan is the maximum of the
frequencies. -/
theorem topPair_fst (l : List (Nat × Nat)) :
    (topPair l).1 = maxNat (l.map (fun q => q.1)) := by
  unfold topPair maxNat
  rw [foldl_pairMax_fst]

/-- The pairMax fold returns a list element or the start value. -/
theorem foldl_pairMax_mem (l : List (Nat × Nat)) : ∀ d : Nat × Nat,
    l.foldl pairMax d ∈ l ∨ l.foldl pairMax d = d := by
  induction l with
  | nil => intro d; right; rfl
  | cons a l ih =>
    intro d
    rw [List.foldl_cons]
    rcases ih (pairMax d a) with h | h
    · left; exact List.mem_cons_of_mem a h
    · rw [h]
      unfold pairMax
      split_ifs
      · left; exact List.mem_cons_self a l
      · right; rfl

/-- The start value bounds the max fold from below. -/
theorem init_le_foldl_max (l : List Nat) : ∀ d : Nat, d ≤ l.foldl max d := by
  induction l with
  | nil => intro d; exact Nat.le_refl d
  | cons a l ih =>
    intro d
    rw [List.foldl_cons]
    exact Nat.le_trans (Nat.le_max_left d a) (ih (max d a))

/-- Every list element bounds the max fold from below. -/
theorem le_foldl_max (l : List Nat) : ∀ (d x : Nat), x ∈ l →
    x ≤ l.foldl max d := by
  induction l with
  | nil => intro d x hx; cases hx
  | cons a l ih =>
    intro d x hx
    rw [List.foldl_cons]
    rcases List.mem_cons.mp hx with h | h
    · subst h
      exact Nat.le_trans (Nat.le_max_right d x) (init_le_foldl_max l (max d x))
    · exact ih (max d a) x h

/-- Every distinct color of the block occurs at least once. -/
theorem colorCount_pos (ps : List Pixel) (c : Nat)
    (hc : c ∈ distinctKeys ps) : 1 ≤ colorCount ps c := by
  unfold distinctKeys at hc
  rw [List.mem_dedup] at hc
  obtain ⟨p, hp, hpc⟩ := List.mem_map.mp hc
  unfold colorCount
  refine List.one_le_countP_iff.mpr ⟨p, hp, ?_⟩
  exact beq_iff_eq.mpr hpc

/-- Mapping the second component over the color pairs recovers the distinct
colors. -/
theorem colorPairs_map_snd (ps : List Pixel) :
    (colorPairs ps).map (fun q => q.2) = distinctKeys ps := by
  unfold colorPairs
  rw [List.map_map]
  exact List.map_id _

/-- The color pairs list has no duplicates (its colors are distinct). -/
theorem colorPairs_nodup (ps : List Pixel) : (colorPairs ps).Nodup := by
  have hd : (distinctKeys ps).Nodup := List.nodup_dedup _
  rw [← colorPairs_map_snd ps] at hd
  exact List.Nodup.of_map _ hd

/-- On a non-empty block, the top pair is one of the color pairs. -/
theorem topPair_mem_colorPairs (ps : List Pixel) (hne : ps ≠ []) :
    topPair (colorPairs ps) ∈ colorPairs ps := by
  rcases foldl_pairMax_mem (colorPairs ps) (0, 0) with h | h
  · exact h
  · exfalso
    obtain ⟨p0, hp0⟩ := List.exists_mem_of_ne_nil ps hne
    have hc : colorKey p0 ∈ distinctKeys ps := by
      unfold distinctKeys
      rw [List.mem_dedup]
      exact List.mem_map_of_mem colorKey hp0
    have h1 : 1 ≤ colorCount ps (colorKey p0) := colorCount_pos ps _ hc
    have hq : colorCount ps (colorKey p0) ∈
        (colorPairs ps).map (fun q => q.1) := by
      unfold colorPairs
      rw [List.map_map]
      exact List.mem_map_of_mem _ hc
    have h2 : colorCount ps (colorKey p0) ≤
        ((colorPairs ps).map (fun q => q.1)).foldl max 0 :=
      le_foldl_max _ 0 _ hq
    have h3 := topPair_fst (colorPairs ps)
    unfold topPair at h3
    rw [h] at h3
    unfold maxNat at h3
    simp at h3
    omega

/-- On a non-empty block, the top pair is the pair of its own color. -/
theorem topPair_eq_pair (ps : List Pixel) (hne : ps ≠ []) :
    topPair (colorPairs ps) =
      (colorCount ps (topPair (colorPairs ps)).2,
        (topPair (colorPairs ps)).2) := by
  obtain ⟨c, _, he⟩ := List.mem_map.mp (topPair_mem_colorPairs ps hne)
  rw [← he]

/-- Filtering one pair out of a frequency-pair list and reading off the
frequencies is the same as filtering the pair's color out of the color list
and recounting. -/
theorem filter_pairs_fst (l : List Nat) (g : Nat → Nat)
    (L : List (Nat × Nat)) (hL : L = l.map (fun c => (g c, c)))
    (t : Nat × Nat) (ht : t.1 = g t.2) :
    (L.filter (fun q => q != t)).map (fun q => q.1) =
      (l.filter (fun c => c != t.2)).map g := by
  subst hL
  rw [List.filter_map, List.map_map]
  have hfun : ∀ c ∈ l,
      ((fun q => q != t) ∘ (fun c => (g c, c))) c =
        (fun c => c != t.2) c := by
    intro c _
    show ((g c, c) != t) = (c != t.2)
    by_cases hcc : c = t.2
    · subst hcc
      have hpair : (g t.2, t.2) = t := by
        rcases t with ⟨t1, t2⟩
        simp at ht ⊢
        exact ht.symm
      rw [hpair, bne_self_eq_false, bne_self_eq_false]
    · have hne2 : (g c, c) ≠ t := by
        intro hh
        apply hcc
        rw [← hh]
      rw [bne_iff_ne.mpr hne2, bne_iff_ne.mpr hcc]
  rw [List.filter_congr hfun]
  exact List.map_congr_left (fun c _ => rfl)

/-- C3: direct mode is chosen exactly when count2 exceeds 16, where count2
is the top per-color frequency plus, when a second distinct color exists,
the maximal frequency among the remaining colors (the second most frequent
distinct color); with a single distinct color, count2 is the top frequency
alone. -/
theorem analyzeBlock_mode_threshold (ps : List Pixel) (hne : ps ≠ []) :
    ((analyzeBlock ps).direct = true ↔ 16 < (analyzeBlock ps).count2) ∧
    colorCount ps (analyzeBlock ps).color1 = maxFreq ps ∧
    ((distinctKeys ps).length = 1 →
      (analyzeBlock ps).count2 = maxFreq ps) ∧
    (2 ≤ (distinctKeys ps).length →
      (analyzeBlock ps).count2 = maxFreq ps +
        maxNat (((distinctKeys ps).filter
          (fun c => c != (analyzeBlock ps).color1)).map (colorCount ps))) := by
  have htop := topPair_mem_colorPairs ps hne
  have htpe := topPair_eq_pair ps hne
  have hfst : (topPair (colorPairs ps)).1 = maxFreq ps := by
    rw [topPair_fst]
    rfl
  have hcol : (analyzeBlock ps).color1 = (topPair (colorPairs ps)).2 := rfl
  have hc2 : (analyzeBlock ps).count2 =
      (if (colorPairs ps).erase (topPair (colorPairs ps)) = [] then
        (topPair (colorPairs ps)).1
       else (topPair (colorPairs ps)).1 +
        (topPair ((colorPairs ps).erase (topPair (colorPairs ps)))).1) := rfl
  have hdir : (analyzeBlock ps).direct =
      decide (16 < (analyzeBlock ps).count2) := rfl
  have hlenp : (colorPairs ps).length = (distinctKeys ps).length := by
    unfold colorPairs
    exact List.length_map _ _
  have hlene : ((colorPairs ps).erase (topPair (colorPairs ps))).length =
      (colorPairs ps).length - 1 := List.length_erase_of_mem htop
  refine ⟨?_, ?_, ?_, ?_⟩
  · rw [hdir]
    exact decide_eq_true_iff
  · rw [hcol, ← hfst]
    exact congrArg Prod.fst htpe.symm
  · intro h1
    have hrest : (colorPairs ps).erase (topPair (colorPairs ps)) = [] := by
      rw [← List.length_eq_zero]
      omega
    rw [hc2, if_pos hrest, hfst]
  · intro h2
    have hrest : (colorPairs ps).erase (topPair (colorPairs ps)) ≠ [] := by
      intro h0
      rw [h0] at hlene
      simp at hlene
      omega
    rw [hc2, if_neg hrest, hfst]
    congr 1
    have hfilter : (colorPairs ps).erase (topPair (colorPairs ps)) =
        (colorPairs ps).filter (fun q => q != topPair (colorPairs ps)) :=
      (colorPairs_nodup ps).erase_eq_filter _
    have hmapf := filter_pairs_fst (distinctKeys ps) (colorCount ps)
      (colorPairs ps) rfl (topPair (colorPairs ps))
      (by
        rw [htpe])
    rw [topPair_fst, hfilter, hmapf, hcol]

set_option maxRecDepth 1000000 in
/-- Witness for C3 at a concrete non-empty block with 32 distinct colors. -/
theorem analyzeBlock_mode_threshold_witness :
    sampleSplitBlock ≠ [] ∧
    (((analyzeBlock sampleSplitBlock).direct = true ↔
        16 < (analyzeBlock sampleSplitBlock).count2) ∧
    colorCount sampleSplitBlock (analyzeBlock sampleSplitBlock).color1 =
      maxFreq sampleSplitBlock ∧
    ((distinctKeys sampleSplitBlock).length = 1 →
      (analyzeBlock sampleSplitBlock).count2 = maxFreq sampleSplitBlock) ∧
    (2 ≤ (distinctKeys sampleSplitBlock).length →
      (analyzeBlock sampleSplitBlock).count2 = maxFreq sampleSplitBlock +
        maxNat (((distinctKeys sampleSplitBlock).filter
          (fun c => c != (analyzeBlock sampleSplitBlock).color1)).map
            (colorCount sampleSplitBlock)))) :=
  ⟨by decide, analyzeBlock_mode_threshold sampleSplitBlock (by decide)⟩

end TIV
